import Mathlib

/-!
Shallow embedding of the `ctqtools` DICOM organizing / metadata-extraction
program (files `ctqtools/config.py`, `ctqtools/organize_dicom.py`,
`ctqtools/qa.py`, `ctqtools/cli.py`).

Modelling conventions:
* A pandas `DataFrame` of instance records is a `List InstanceRecord`;
  a missing value (`NaN` / Python `None`) is `Option.none`.
* Column presence is data-set wide in pandas (a column exists when at least
  one raw row dictionary carried the key, even with value `None`), so the
  functions that branch on `"X" in df.columns` take explicit Boolean
  column-presence flags; the intended well-formedness link is that a flag
  being `false` forces every record's value for that field to be `none`.
* Python numeric parsing (`pd.to_numeric(errors="coerce")`, `float(...)`)
  is modelled for decimal literals (optional sign, digits, optional
  fractional part, surrounding whitespace); exotic spellings (exponents,
  `inf`) are outside the modelled subset and count as unparseable.
* Python string comparison is code-point lexicographic; it is modelled by
  `strLtB`/`strLeB` on `List Char`.
* `re` regular expressions are modelled by a small derivative-based engine
  over the syntax `literal`, `.`, `(...)`, `|`, `*`, `+`, `?`, `\c`;
  compilation fails (`none`) on malformed patterns, e.g. `"("`, exactly as
  `re.compile`/`re.search` raise `re.error` in Python.  Substitution is
  modelled with a literal replacement template (back-references are outside
  the modelled subset); no claim below depends on the substituted text.
* Functions that can raise in Python are modelled in `Except String`.
-/

namespace CTQ

/-- Python `str.strip()` whitespace test (ASCII whitespace). -/
def isPySpace (c : Char) : Bool :=
  c = ' ' || c = '\t' || c = '\n' || c = '\r' || c = '\x0b' || c = '\x0c'

/-- Python `str.strip()` on a character list. -/
def stripChars (l : List Char) : List Char :=
  ((l.dropWhile isPySpace).reverse.dropWhile isPySpace).reverse

/-- Python `str.strip()`. -/
def pyStrip (s : String) : String :=
  String.mk (stripChars s.data)

/-- Value of a digit list, most significant first. -/
def digitsVal (l : List Char) : Nat :=
  l.foldl (fun a c => a * 10 + (c.toNat - 48)) 0

/-- Parse an (already stripped) character list as a decimal number:
optional sign, integer digits, optional `.` and fractional digits; models
Python `float(...)` / `pd.to_numeric(errors="coerce")` on the decimal
subset.  Returns `none` when the text is not such a literal. -/
def parseRatChars (l : List Char) : Option ℚ :=
  let signed : Bool × List Char :=
    match l with
    | '-' :: t => (true, t)
    | '+' :: t => (false, t)
    | _ => (false, l)
  let intDs := signed.2.takeWhile Char.isDigit
  let rest := signed.2.dropWhile Char.isDigit
  let core : Option ℚ :=
    match rest with
    | [] => if intDs.isEmpty then none else some ((digitsVal intDs : ℤ) : ℚ)
    | '.' :: fr =>
      let frDs := fr.takeWhile Char.isDigit
      let rest2 := fr.dropWhile Char.isDigit
      if rest2.isEmpty then
        if intDs.isEmpty && frDs.isEmpty then none
        else some (mkRat (digitsVal intDs * 10 ^ frDs.length + digitsVal frDs)
          (10 ^ frDs.length))
      else none
    | _ => none
  core.map (fun q => if signed.1 then -q else q)

/-- Parse a string as a decimal number, stripping surrounding whitespace
first (both `float` and `pd.to_numeric` accept surrounding whitespace). -/
def parseRatStr (s : String) : Option ℚ :=
  parseRatChars (stripChars s.data)

/-- `pd.to_numeric(…, errors="coerce")` applied to one cell: a missing
value stays missing, a string is parsed permissively. -/
def toNumeric (v : Option String) : Option ℚ :=
  v.bind parseRatStr

/-- Python `str.split(sep)` on character lists (`"".split(sep) = [""]`,
adjacent separators yield empty fields). -/
def splitOnChar (sep : Char) (l : List Char) : List (List Char) :=
  l.foldr
    (fun c acc =>
      match acc with
      | [] => [[c]]
      | h :: t => if c = sep then [] :: h :: t else (c :: h) :: t)
    [[]]

/-- The `zpos` helper of `organize_dicom.main`: extract the third ("depth")
component of an `ImagePositionPatient` textual encoding.  Mirrors the
source: bracketed list literals (`ast.literal_eval` then `float(lst[2])`),
else backslash-delimited (`float(s.split("\\")[2])`), else comma-delimited
(`float(parts[2]) if len(parts) > 2`); any failure yields `none` (NaN). -/
def zpos (s : String) : Option ℚ :=
  let cs := s.data
  if cs.head? = some '[' then
    let t := stripChars cs
    if t.getLast? = some ']' then
      let inner := (t.drop 1).dropLast
      let parts := splitOnChar ',' inner
      match parts.get? 2 with
      | some p => parseRatChars (stripChars p)
      | none => none
    else none
  else if cs.contains '\\' then
    match (splitOnChar '\\' cs).get? 2 with
    | some p => parseRatChars (stripChars p)
    | none => none
  else
    let parts := splitOnChar ',' cs
    if parts.length > 2 then
      match parts.get? 2 with
      | some p => parseRatChars (stripChars p)
      | none => none
    else none

/-- One indexed instance record (one row of the metadata DataFrame).
Fields are the columns the modelled code paths read; `none` is a missing
value (NaN).  `path` is the always-present `_path` column. -/
structure InstanceRecord where
  path : String
  patientName : Option String := none
  patientID : Option String := none
  studyUID : Option String := none
  seriesUID : Option String := none
  seriesNumber : Option String := none
  protocolNorm : Option String := none
  modality : Option String := none
  sopUID : Option String := none
  instanceNumber : Option String := none
  imagePositionPatient : Option String := none
  acquisitionTime : Option String := none
deriving DecidableEq, Repr

/-- The `_zpos` column value of a record (`g["ImagePositionPatient"].map(zpos)`;
mapping over NaN also yields NaN). -/
def zOf (r : InstanceRecord) : Option ℚ :=
  r.imagePositionPatient.bind zpos

/-- Python code-point-lexicographic strict comparison of strings
(`a < b` on `str`), on character lists. -/
def strLtB : List Char → List Char → Bool
  | [], [] => false
  | [], _ :: _ => true
  | _ :: _, [] => false
  | a :: as, b :: bs => if a < b then true else if b < a then false else strLtB as bs

/-- Python `a <= b` on strings. -/
def strLeB (a b : List Char) : Bool := !(strLtB b a)

/-- A strict order on a key type, packaged with the facts the sorting
lemmas need. -/
structure KOrd (K : Type) where
  lt : K → K → Bool
  asymm : ∀ a b, lt a b = true → lt b a = false
  ltTrans : ∀ a b c, lt a b = true → lt b c = true → lt a c = true
  tricho : ∀ a b, lt a b = true ∨ a = b ∨ lt b a = true

/-- Strict order on ℚ. -/
def ratOrd : KOrd ℚ where
  lt a b := decide (a < b)
  asymm a b h := by
    simp only [decide_eq_true_eq] at h
    simpa using not_lt_of_lt h
  ltTrans a b c h₁ h₂ := by
    simp only [decide_eq_true_eq] at *
    exact lt_trans h₁ h₂
  tricho a b := by
    rcases lt_trichotomy a b with h | h | h
    · exact Or.inl (by simpa using h)
    · exact Or.inr (Or.inl h)
    · exact Or.inr (Or.inr (by simpa using h))

/-- Missing-first lifting of a key order: `none` (NaN) sorts before every
value, matching `sort_values(..., na_position="first")`. -/
def optFirstOrd (o : KOrd K) : KOrd (Option K) where
  lt a b :=
    match a, b with
    | none, none => false
    | none, some _ => true
    | some _, none => false
    | some x, some y => o.lt x y
  asymm a b h := by
    match a, b with
    | none, none => simp at h
    | none, some _ => rfl
    | some _, none => simp at h
    | some x, some y => exact o.asymm x y h
  ltTrans a b c h₁ h₂ := by
    match a, b, c with
    | none, some _, some _ => rfl
    | some x, some y, some z => exact o.ltTrans x y z h₁ h₂
    | none, none, _ => simp at h₁
    | some _, none, _ => simp at h₁
    | _, some _, none => simp at h₂
  tricho a b := by
    match a, b with
    | none, none => exact Or.inr (Or.inl rfl)
    | none, some _ => exact Or.inl rfl
    | some _, none => exact Or.inr (Or.inr rfl)
    | some x, some y =>
      rcases o.tricho x y with h | h | h
      · exact Or.inl h
      · exact Or.inr (Or.inl (by rw [h]))
      · exact Or.inr (Or.inr h)

/-- Missing-last lifting of a key order: `none` (NaN) sorts after every
value, matching the default `na_position="last"` of `sort_values`. -/
def optLastOrd (o : KOrd K) : KOrd (Option K) where
  lt a b :=
    match a, b with
    | none, none => false
    | none, some _ => false
    | some _, none => true
    | some x, some y => o.lt x y
  asymm a b h := by
    match a, b with
    | none, none => simp at h
    | none, some _ => simp at h
    | some _, none => rfl
    | some x, some y => exact o.asymm x y h
  ltTrans a b c h₁ h₂ := by
    match a, b, c with
    | some _, none, none => simp at h₂
    | some _, none, some _ => simp at h₂
    | some x, some y, none => rfl
    | some x, some y, some z => exact o.ltTrans x y z h₁ h₂
    | none, none, _ => simp at h₁
    | none, some _, _ => simp at h₁
  tricho a b := by
    match a, b with
    | none, none => exact Or.inr (Or.inl rfl)
    | none, some _ => exact Or.inr (Or.inr rfl)
    | some _, none => exact Or.inl rfl
    | some x, some y =>
      rcases o.tricho x y with h | h | h
      · exact Or.inl h
      · exact Or.inr (Or.inl (by rw [h]))
      · exact Or.inr (Or.inr h)

/-- Trivial key order (used when the sort is by `_path` alone). -/
def unitOrd : KOrd Unit where
  lt _ _ := false
  asymm _ _ h := by simp at h
  ltTrans _ _ _ h := by simp at h
  tricho a b := by
    cases a
    cases b
    exact Or.inr (Or.inl rfl)

/-- Sort-key comparison used by every `sort_values([key_col, "_path"])`
call: by key first, ties broken by the `_path` string. -/
def lexLeB (o : KOrd K) (key : α → K) (pth : α → List Char) (a b : α) : Bool :=
  if o.lt (key a) (key b) then true
  else if o.lt (key b) (key a) then false
  else strLeB (pth a) (pth b)

/-- Strictness of a `KOrd` is irreflexive. -/
def KOrd.irrefl (o : KOrd K) (x : K) : o.lt x x = false := by
  cases h : o.lt x x
  · rfl
  · have := o.asymm x x h
    rw [h] at this
    exact this

/-- Code-point order on character lists, packaged. -/
def strOrd : KOrd (List Char) where
  lt := strLtB
  asymm a b h := by
    induction a generalizing b with
    | nil =>
      cases b with
      | nil => simp [strLtB] at h
      | cons d ds => simp [strLtB]
    | cons c cs ih =>
      cases b with
      | nil => simp [strLtB] at h
      | cons d ds =>
        simp only [strLtB] at h ⊢
        by_cases h1 : c < d
        · simp [h1, lt_asymm h1]
        · by_cases h2 : d < c
          · simp [h1, h2] at h
          · simp only [h1, h2, if_false] at h ⊢
            exact ih ds h
  ltTrans a b c h₁ h₂ := by
    induction a generalizing b c with
    | nil =>
      cases c with
      | nil =>
        cases b with
        | nil => simp [strLtB] at h₁
        | cons d ds => simp [strLtB] at h₂
      | cons e es => simp [strLtB]
    | cons x xs ih =>
      cases b with
      | nil => simp [strLtB] at h₁
      | cons y ys =>
        cases c with
        | nil => simp [strLtB] at h₂
        | cons z zs =>
          simp only [strLtB] at h₁ h₂ ⊢
          by_cases hxy : x < y
          · by_cases hyz : y < z
            · simp [lt_trans hxy hyz]
            · by_cases hzy : z < y
              · simp [hyz, hzy] at h₂
              · have hy : y = z := le_antisymm (le_of_not_lt hzy) (le_of_not_lt hyz)
                simp [hy ▸ hxy]
          · by_cases hyx : y < x
            · simp [hxy, hyx] at h₁
            · have hx : x = y := le_antisymm (le_of_not_lt hyx) (le_of_not_lt hxy)
              subst hx
              simp only [if_neg hxy] at h₁
              by_cases hxz : x < z
              · simp [hxz]
              · by_cases hzx : z < x
                · simp [hxz, hzx] at h₂
                · simp only [hxz, hzx, if_false] at h₂ ⊢
                  exact ih ys zs h₁ h₂
  tricho a b := by
    induction a generalizing b with
    | nil =>
      cases b with
      | nil => exact Or.inr (Or.inl rfl)
      | cons d ds => exact Or.inl (by simp [strLtB])
    | cons c cs ih =>
      cases b with
      | nil => exact Or.inr (Or.inr (by simp [strLtB]))
      | cons d ds =>
        rcases lt_trichotomy c d with h | h | h
        · exact Or.inl (by simp [strLtB, h])
        · subst h
          rcases ih ds with h2 | h2 | h2
          · exact Or.inl (by simp [strLtB, h2])
          · exact Or.inr (Or.inl (by rw [h2]))
          · exact Or.inr (Or.inr (by simp [strLtB, h2]))
        · exact Or.inr (Or.inr (by simp [strLtB, h, lt_asymm h]))

/-- The sort relation induced by a key order and the path tie-break, as a
proposition (this is what `List.insertionSort` consumes). -/
def lexLeP (o : KOrd K) (key : α → K) (pth : α → List Char) : α → α → Prop :=
  fun a b => lexLeB o key pth a b = true

/-- Decidability of the sort relation. -/
instance lexLeDec (o : KOrd K) (key : α → K) (pth : α → List Char) :
    DecidableRel (lexLeP o key pth) :=
  fun _ _ => instDecidableEqBool _ _

/-- Totality of the sort relation (any two records are comparable). -/
def lexLeTotal (o : KOrd K) (key : α → K) (pth : α → List Char)
    (hp : ∀ a b : α, strLtB (pth a) (pth b) = true → strLtB (pth b) (pth a) = false) :
    IsTotal α (lexLeP o key pth) := by
  constructor
  intro a b
  unfold lexLeP
  rcases o.tricho (key a) (key b) with h | h | h
  · exact Or.inl (by simp [lexLeB, h])
  · cases h2 : strLtB (pth b) (pth a)
    · exact Or.inl (by simp [lexLeB, strLeB, h, KOrd.irrefl, h2])
    · exact Or.inr (by simp [lexLeB, strLeB, h, KOrd.irrefl, hp _ _ h2])
  · exact Or.inr (by simp [lexLeB, h])

/-- Transitivity of the sort relation. -/
def lexLeTrans (o : KOrd K) (key : α → K) (pth : α → List Char) :
    IsTrans α (lexLeP o key pth) := by
  constructor
  intro a b c h₁ h₂
  unfold lexLeP at h₁ h₂ ⊢
  by_cases hab : o.lt (key a) (key b) = true
  · by_cases hbc : o.lt (key b) (key c) = true
    · simp [lexLeB, o.ltTrans _ _ _ hab hbc]
    · by_cases hcb : o.lt (key c) (key b) = true
      · simp [lexLeB, hbc, hcb] at h₂
      · have hkey : key b = key c := by
          rcases o.tricho (key b) (key c) with h | h | h
          · exact absurd h hbc
          · exact h
          · exact absurd h hcb
        simp [lexLeB, hkey ▸ hab]
  · by_cases hba : o.lt (key b) (key a) = true
    · simp [lexLeB, hab, hba] at h₁
    · have hkey : key a = key b := by
        rcases o.tricho (key a) (key b) with h | h | h
        · exact absurd h hab
        · exact h
        · exact absurd h hba
      simp only [lexLeB] at h₁ h₂ ⊢
      rw [← hkey] at h₂
      simp only [hab, hba, Bool.false_eq_true, if_false] at h₁
      by_cases hac : o.lt (key a) (key c) = true
      · simp [hac]
      · by_cases hca : o.lt (key c) (key a) = true
        · simp [hac, hca] at h₂
        · simp only [hac, hca, Bool.false_eq_true, if_false] at h₂ ⊢
          unfold strLeB at h₁ h₂ ⊢
          simp only [Bool.not_eq_true'] at h₁ h₂ ⊢
          cases hra : strLtB (pth c) (pth a)
          · rfl
          · rcases strOrd.tricho (pth a) (pth b) with h | h | h
            · have h2x : strLtB (pth c) (pth b) = true := strOrd.ltTrans _ _ _ hra h
              simp [h2x] at h₂
            · have h2x : strLtB (pth c) (pth b) = true := by
                have hpp : pth a = pth b := h
                rw [← hpp]
                exact hra
              simp [h2x] at h₂
            · have h1x : strLtB (pth b) (pth a) = true := h
              simp [h1x] at h₁

/-- The `_path` column of a record, as a character list. -/
def pathOf (r : InstanceRecord) : List Char := r.path.data

/-- `InstanceNumber_num` column: `pd.to_numeric(g["InstanceNumber"], errors="coerce")`. -/
def instKey (r : InstanceRecord) : Option ℚ := toNumeric r.instanceNumber

/-- `AcquisitionTime` as a sort key (textual, lexicographic). -/
def timeKey (r : InstanceRecord) : Option (List Char) := r.acquisitionTime.map String.data

/-- `g.sort_values([<key column>, "_path"])`, stably, with the given
missing-value placement baked into the key order. -/
def sortRecords (o : KOrd K) (key : InstanceRecord → K) (g : List InstanceRecord) :
    List InstanceRecord :=
  @List.insertionSort _ (lexLeP o key pathOf) (lexLeDec o key pathOf) g

/-- The `# Orden` block of `organize_dicom.main`: choose the sort order for
one series-level group `g`.  The three Booleans say whether the
`InstanceNumber`, `ImagePositionPatient` and `AcquisitionTime` columns
exist in the DataFrame (column presence is a property of the whole record
set, not of the group).  Mirrors the source exactly: when the
`InstanceNumber` column exists the group is sorted by
`(InstanceNumber_num, _path)` with NaN first — with no check that any
member actually parsed; only the `_zpos` strategy checks
`g["_zpos"].notna().any()`. -/
def sortGroup (hasInst hasPos hasTime : Bool) (g : List InstanceRecord) :
    List InstanceRecord :=
  if hasInst then sortRecords (optFirstOrd ratOrd) instKey g
  else if hasPos then
    if g.any (fun r => (zOf r).isSome) then sortRecords (optFirstOrd ratOrd) zOf g
    else if hasTime then sortRecords (optLastOrd strOrd) timeKey g
    else sortRecords unitOrd (fun _ => ()) g
  else if hasTime then sortRecords (optLastOrd strOrd) timeKey g
  else sortRecords unitOrd (fun _ => ()) g

/-- Keep-first deduplication by a key function, with an accumulator of the
key values already seen (this is `drop_duplicates(keep="first")` /
first-occurrence grouping-key extraction). -/
def dedupByAux [DecidableEq κ] (f : α → κ) (seen : List κ) : List α → List α
  | [] => []
  | a :: as =>
    if f a ∈ seen then dedupByAux f seen as
    else a :: dedupByAux f (f a :: seen) as

/-- Keep the first element of each key value. -/
def dedupBy [DecidableEq κ] (f : α → κ) (l : List α) : List α := dedupByAux f [] l

/-- `g.drop_duplicates(subset=["SOPInstanceUID"], keep="first")`: keep the
first record of each `SOPInstanceUID` value (pandas treats NaN values as
equal to each other here). -/
def dedupBySop (g : List InstanceRecord) : List InstanceRecord :=
  dedupBy (fun r => r.sopUID) g

/-- The per-group record pipeline of `organize_dicom.main`: deduplicate by
`SOPInstanceUID` (when that column exists), then sort.  The records of the
result are materialized in order under sequential names. -/
def organizeGroup (hasSop hasInst hasPos hasTime : Bool) (g : List InstanceRecord) :
    List InstanceRecord :=
  sortGroup hasInst hasPos hasTime (if hasSop then dedupBySop g else g)

/-- `os.path.basename`. -/
def pyBasename (p : String) : String :=
  String.mk ((splitOnChar '/' p.data).getLastD [])

/-- The extension part of `os.path.splitext` on a basename: the suffix from
the last dot, unless every character before that dot is itself a dot. -/
def splitextExt (cs : List Char) : List Char :=
  let idxs := (List.range cs.length).filter (fun i => decide (cs.get? i = some '.'))
  match idxs.getLast? with
  | none => []
  | some p => if (cs.take p).any (fun c => decide ¬(c = '.')) then cs.drop p else []

/-- `os.path.splitext(base)[1]`. -/
def extOf (base : String) : String := String.mk (splitextExt base.data)

/-- `pad = ns.pad_width if ns.pad_width and ns.pad_width > 0 else max(4, len(str(total)))`. -/
def padWidthOf (padArg total : Nat) : Nat :=
  if 0 < padArg then padArg else max 4 (toString total).length

/-- `f"{idx:0{pad}d}"`: decimal digits left-padded with zeros to width `w`. -/
def zeroPad (w : Nat) (n : Nat) : String :=
  String.mk (List.replicate (w - (toString n).length) '0' ++ (toString n).data)

/-- One manifest row: `(new_name, original_name, src_path)`. -/
def manifestRow (w : Nat) (idx : Nat) (r : InstanceRecord) : String × String × String :=
  let base := pyBasename r.path
  (zeroPad w idx ++ extOf base, base, r.path)

/-- The manifest of one organized group: records in sorted order get
1-based sequential zero-padded names with the original extension.
Materialization itself (copy/link) is modelled as succeeding for every
record, so every record yields its manifest row. -/
def manifestRows (padArg : Nat) (sorted : List InstanceRecord) :
    List (String × String × String) :=
  let w := padWidthOf padArg sorted.length
  sorted.enum.map (fun p => manifestRow w (p.1 + 1) p.2)

/-- Regular expressions over the modelled syntax subset (literal character,
`.`, concatenation, `|`, `*`; `+` and `?` are desugared at parse time). -/
inductive RE
  | nul
  | eps
  | chr (c : Char)
  | anyc
  | alt (a b : RE)
  | cat (a b : RE)
  | star (a : RE)
deriving DecidableEq, Repr

/-- Does the regex accept the empty string? -/
def RE.nullable : RE → Bool
  | .nul => false
  | .eps => true
  | .chr _ => false
  | .anyc => false
  | .alt a b => a.nullable || b.nullable
  | .cat a b => a.nullable && b.nullable
  | .star _ => true

/-- Brzozowski derivative.  Literal characters are stored lower-cased and
compared against the lower-cased input character: this models the
`re.IGNORECASE` flag that `normalize_protocol` always passes. -/
def RE.deriv : RE → Char → RE
  | .nul, _ => .nul
  | .eps, _ => .nul
  | .chr c, d => if c = d.toLower then .eps else .nul
  | .anyc, _ => .eps
  | .alt a b, d => .alt (a.deriv d) (b.deriv d)
  | .cat a b, d =>
    if a.nullable then .alt (.cat (a.deriv d) b) (b.deriv d) else .cat (a.deriv d) b
  | .star a, d => .cat (a.deriv d) (.star a)

/-- Does some prefix of the text match the regex? -/
def matchesPre (r : RE) : List Char → Bool
  | [] => r.nullable
  | c :: cs => r.nullable || matchesPre (r.deriv c) cs

/-- `re.search`: does the regex match somewhere in the text? -/
def reSearch (r : RE) : List Char → Bool
  | [] => r.nullable
  | c :: cs => matchesPre r (c :: cs) || reSearch r cs

/-- Length of the longest prefix of the text matched by the regex. -/
def longestMatch (r : RE) : List Char → Option Nat
  | [] => if r.nullable then some 0 else none
  | c :: cs =>
    match longestMatch (r.deriv c) cs with
    | some n => some (n + 1)
    | none => if r.nullable then some 0 else none

/-- Fuel-driven body of `re.sub`: replace non-overlapping leftmost-longest
matches; a zero-width match emits the replacement and advances one
character. -/
def subAllAux (r : RE) (rep : List Char) : Nat → List Char → List Char
  | 0, l => l
  | _ + 1, [] => if r.nullable then rep else []
  | fuel + 1, c :: cs =>
    match longestMatch r (c :: cs) with
    | some 0 => rep ++ c :: subAllAux r rep fuel cs
    | some (n + 1) => rep ++ subAllAux r rep fuel ((c :: cs).drop (n + 1))
    | none => c :: subAllAux r rep fuel cs

/-- `re.sub` with a literal replacement template (back-references are
outside the modelled subset; no claim depends on the substituted text). -/
def reSub (r : RE) (rep : List Char) (l : List Char) : List Char :=
  subAllAux r rep (l.length + 1) l

/-- Fold a reversed item list into a concatenation. -/
def seqOf (l : List RE) : RE :=
  match l.reverse with
  | [] => .eps
  | h :: t => t.foldl (fun acc r => RE.cat acc r) h

/-- Fold a reversed alternative list into an alternation. -/
def altOf (l : List RE) : RE :=
  match l.reverse with
  | [] => .nul
  | h :: t => t.foldl (fun acc r => RE.alt acc r) h

/-- One-pass pattern parser (models `re.compile` on the syntax subset
`literal`, `.`, `(...)`, `|`, `*`, `+`, `?`, `\c`): a stack of suspended
`(alternatives, sequence)` frames for open groups.  Returns `none` on a
malformed pattern — unbalanced parentheses or brackets-free errors such as
a dangling escape or a repeat with nothing to repeat — exactly the inputs
on which Python `re` raises `re.error`.  Literals are lower-cased
(`re.IGNORECASE`). -/
def parseRE (stack : List (List RE × List RE)) (alts seq : List RE) :
    List Char → Option RE
  | [] =>
    match stack with
    | [] => some (altOf (seqOf seq :: alts))
    | _ :: _ => none
  | '(' :: rest => parseRE ((alts, seq) :: stack) [] [] rest
  | ')' :: rest =>
    match stack with
    | [] => none
    | (alts0, seq0) :: stack0 =>
      parseRE stack0 alts0 (altOf (seqOf seq :: alts) :: seq0) rest
  | '|' :: rest => parseRE stack (seqOf seq :: alts) [] rest
  | '*' :: rest =>
    match seq with
    | [] => none
    | h :: t => parseRE stack alts (RE.star h :: t) rest
  | '+' :: rest =>
    match seq with
    | [] => none
    | h :: t => parseRE stack alts (RE.cat h (RE.star h) :: t) rest
  | '?' :: rest =>
    match seq with
    | [] => none
    | h :: t => parseRE stack alts (RE.alt h RE.eps :: t) rest
  | '.' :: rest => parseRE stack alts (RE.anyc :: seq) rest
  | '\\' :: d :: rest => parseRE stack alts (RE.chr d.toLower :: seq) rest
  | ['\\'] => none
  | c :: rest => parseRE stack alts (RE.chr c.toLower :: seq) rest

/-- `re.compile(pattern, re.IGNORECASE)` on the modelled subset. -/
def compileRegex (p : String) : Option RE :=
  parseRE [] [] [] p.data

/-- One regex rule of the configuration (`{pattern: ..., replace: ...}`;
`rule.get("pattern")` may be absent, `rule.get("replace", "")` defaults to
the empty string). -/
structure RegexRule where
  pattern : Option String
  replace : String
deriving DecidableEq, Repr

/-- A loaded configuration: exact-match table and ordered regex rules. -/
structure Cfg where
  protocol_map : List (String × String)
  protocol_regex : List RegexRule
deriving DecidableEq, Repr

/-- The empty rule set `{"protocol_map": {}, "protocol_regex": []}`. -/
def emptyCfg : Cfg := ⟨[], []⟩

/-- What the file system holds at a configuration path: absent, existing
but unreadable (`open` raises `OSError`/`PermissionError`), unparseable
(`yaml.safe_load` raises), or parsed YAML with the two optional fields
(`setdefault` fills absent fields with empty values). -/
inductive YamlFile
  | missing
  | unreadable
  | badYaml
  | parsed (protocol_map : Option (List (String × String)))
      (protocol_regex : Option (List RegexRule))

/-- `config.load_config`: `None` or empty path → empty rule set; a path
that does not exist → empty rule set; otherwise the file is opened and
parsed with no exception handling, so an unreadable or unparseable file
raises. -/
def load_config (path : Option String) (fs : String → YamlFile) : Except String Cfg :=
  match path with
  | none => .ok emptyCfg
  | some p =>
    if p = "" then .ok emptyCfg
    else
      match fs p with
      | .missing => .ok emptyCfg
      | .unreadable => .error "OSError"
      | .badYaml => .error "YAMLError"
      | .parsed m r => .ok ⟨m.getD [], r.getD []⟩

/-- The regex-rule loop of `config.normalize_protocol`: rules in order; a
rule with an absent or empty pattern is skipped; a malformed pattern makes
`re.search` raise (there is no handler); a matching rule returns the
substitution; otherwise the stripped label falls through unchanged. -/
def applyRules : List RegexRule → String → Except String String
  | [], s => .ok s
  | rule :: rest, s =>
    match rule.pattern with
    | none => applyRules rest s
    | some p =>
      if p = "" then applyRules rest s
      else
        match compileRegex p with
        | none => .error "re.error"
        | some r =>
          if reSearch r s.data then .ok (String.mk (reSub r rule.replace.data s.data))
          else applyRules rest s

/-- `config.normalize_protocol`: falsy label → `"NA"`; else strip, try the
exact-match table, then the regex rules, else identity on the stripped
label. -/
def normalize_protocol (name : Option String) (cfg : Cfg) : Except String String :=
  match name with
  | none => .ok "NA"
  | some n =>
    if n = "" then .ok "NA"
    else
      let s := pyStrip n
      match cfg.protocol_map.lookup s with
      | some v => .ok v
      | none => applyRules cfg.protocol_regex s

/-- A rule whose pattern compiles (or is skipped because absent/empty):
the decidable hypothesis under which the rule loop cannot raise. -/
def ruleOk (rule : RegexRule) : Bool :=
  match rule.pattern with
  | none => true
  | some p => decide (p = "") || (compileRegex p).isSome

/-- A rule that does not fire on the text `s`: skipped (absent or empty
pattern) or well-formed and not matching.  A malformed pattern is *not*
non-matching — it raises — so it is excluded here. -/
def ruleNoMatch (s : String) (rule : RegexRule) : Bool :=
  match rule.pattern with
  | none => true
  | some p =>
    if p = "" then true
    else
      match compileRegex p with
      | none => false
      | some r => !(reSearch r s.data)

/-- A cell counts as missing in `qa.missing_critical_tags` when it is NaN
(`df[c].isna()`) or the empty string (`df[c].astype(str) == ""`). -/
def isMissingVal (v : Option String) : Bool :=
  match v with
  | none => true
  | some s => decide (s = "")

/-- `qa.missing_critical_tags`: rows where any of the four critical
identifier columns that exist in the DataFrame (`present`) is missing or
empty; when none of the four columns exists, the empty report.  The four
Booleans are column presence of `PatientID`, `StudyInstanceUID`,
`SeriesInstanceUID`, `SOPInstanceUID`. -/
def missing_critical_tags (pPat pStu pSer pSop : Bool) (df : List InstanceRecord) :
    List InstanceRecord :=
  if pPat || pStu || pSer || pSop then
    df.filter (fun r =>
      (pPat && isMissingVal r.patientID) || (pStu && isMissingVal r.studyUID) ||
      (pSer && isMissingVal r.seriesUID) || (pSop && isMissingVal r.sopUID))
  else []

/-- `astype(int)` on a float: truncation toward zero. -/
def ratTruncToInt (q : ℚ) : ℤ := Int.tdiv q.num (q.den : ℤ)

/-- The parsed numeric ordering value of one record
(`pd.to_numeric(..., errors="coerce")` then `astype(int)`). -/
def parsedIN (r : InstanceRecord) : Option ℤ :=
  (toNumeric r.instanceNumber).map ratTruncToInt

/-- Ascending sort of integers (`sort_values().tolist()`). -/
def intSort (l : List ℤ) : List ℤ := List.insertionSort (· ≤ ·) l

/-- `set(range(lo, hi + 1))` as an ascending list. -/
def intRangeIncl (lo hi : ℤ) : List ℤ :=
  (List.range (hi + 1 - lo).toNat).map (fun i : ℕ => lo + (i : ℤ))

/-- `",".join(map(str, l))`. -/
def joinCommaInts (l : List ℤ) : String :=
  String.intercalate "," (l.map toString)

/-- One row of the instance-gap report. -/
structure GapRow where
  sid : Option String
  lo : ℤ
  hi : ℤ
  nExpected : Nat
  nActual : Nat
  nMissing : Nat
  missingList : String
deriving DecidableEq, Repr

/-- The per-series body of `qa.detect_instance_gaps`: parse every member's
ordering value, drop failures, sort; a series with no parseable value
yields no row; otherwise report the range bounds, the expected range size,
the count of distinct observed values, and the missing values (list output
truncated to 50 entries with an ellipsis indicator beyond that). -/
def gapRowFor (df : List InstanceRecord) (sid : Option String) : Option GapRow :=
  let grp := df.filter (fun r => decide (r.seriesUID = sid))
  let nums := intSort (grp.filterMap parsedIN)
  match nums with
  | [] => none
  | a :: rest =>
    let lo := a
    let hi := List.getLastD (a :: rest) a
    let expected := intRangeIncl lo hi
    let missing := expected.filter (fun m => decide ¬(m ∈ nums))
    some
      { sid := sid, lo := lo, hi := hi,
        nExpected := expected.length,
        nActual := (dedupBy id nums).length,
        nMissing := missing.length,
        missingList :=
          joinCommaInts (missing.take 50) ++ (if 50 < missing.length then "…" else "") }

/-- Sort of the group keys produced by `groupby("SeriesInstanceUID",
dropna=False)` (pandas sorts keys ascending, NaN last). -/
def serKeySort (ks : List (Option String)) : List (Option String) :=
  @List.insertionSort _
    (lexLeP (optLastOrd strOrd) (fun k => Option.map String.data k) (fun _ => []))
    (lexLeDec _ _ _) ks

/-- `qa.detect_instance_gaps`: empty report unless both the
`InstanceNumber` and `SeriesInstanceUID` columns exist; otherwise one row
per series that has at least one parseable ordering value. -/
def detect_instance_gaps (hasIN hasSer : Bool) (df : List InstanceRecord) :
    List GapRow :=
  if hasIN && hasSer then
    (serKeySort (dedupBy id (df.map (fun r => r.seriesUID)))).filterMap (gapRowFor df)
  else []

/-- The six-column series grouping key of `cli.main`
(`PatientID, StudyInstanceUID, SeriesInstanceUID, SeriesNumber,
ProtocolNorm, Modality`), with NaN keys grouped together
(`dropna=False`). -/
structure SeriesKey where
  patientID : Option String
  studyUID : Option String
  seriesUID : Option String
  seriesNumber : Option String
  protocolNorm : Option String
  modality : Option String
deriving DecidableEq, Repr

/-- The grouping key of one record. -/
def seriesKey (r : InstanceRecord) : SeriesKey :=
  ⟨r.patientID, r.studyUID, r.seriesUID, r.seriesNumber, r.protocolNorm, r.modality⟩

/-- `df.groupby(existing_cols, dropna=False, sort=False)`: group keys in
first-occurrence order, each paired with the records carrying that key. -/
def seriesGroups (df : List InstanceRecord) : List (SeriesKey × List InstanceRecord) :=
  (dedupBy id (df.map seriesKey)).map
    (fun k => (k, df.filter (fun r => decide (seriesKey r = k))))

/-- The series-level aggregation of `cli.main` (and the matching block of
`organize_dicom.main`): per group, `n_instances = agg count of
SOPInstanceUID`, which in pandas counts the non-null values of that column
(the `instance_min`/`instance_max` aggregates are not needed by any claim
and are not modelled). -/
def seriesAgg (df : List InstanceRecord) : List (SeriesKey × Nat) :=
  (seriesGroups df).map (fun p => (p.1, p.2.countP (fun r => r.sopUID.isSome)))

/-- Spec-side reference quantity for the round-trip claim: the number of
records after keep-first deduplication by source path.  This follows the
spec's words ("total deduplicated-by-path record count"); the source
performs no deduplication by path, which is what the claim is tested
against. -/
def dedupByPathCount (df : List InstanceRecord) : Nat :=
  (dedupBy (fun r => r.path) df).length

/-- Spec-side predicate for the missing-critical-tags claim: the record has
a non-empty value for all four mandatory identifiers (patient, study,
series, unique-instance id).  Used only to compare the report against the
claim's words. -/
def hasCriticalTags (r : InstanceRecord) : Bool :=
  !(isMissingVal r.patientID) && !(isMissingVal r.studyUID) &&
    !(isMissingVal r.seriesUID) && !(isMissingVal r.sopUID)

/-! General lemmas about keep-first deduplication, the sort wrappers and
counting, shared by the claim theorems. -/

theorem mem_of_mem_dedupByAux [DecidableEq κ] (f : α → κ) (seen : List κ)
    (l : List α) (a : α) (h : a ∈ dedupByAux f seen l) : a ∈ l := by
  induction l generalizing seen with
  | nil => simp [dedupByAux] at h
  | cons x xs ih =>
    simp only [dedupByAux] at h
    by_cases hx : f x ∈ seen
    · rw [if_pos hx] at h
      exact List.mem_cons_of_mem _ (ih _ h)
    · rw [if_neg hx] at h
      rcases List.mem_cons.mp h with h | h
      · exact h ▸ List.mem_cons_self _ _
      · exact List.mem_cons_of_mem _ (ih _ h)

theorem dedupByAux_keys [DecidableEq κ] (f : α → κ) (seen : List κ) (l : List α) :
    ((dedupByAux f seen l).map f).Nodup ∧
      ∀ k ∈ (dedupByAux f seen l).map f, k ∉ seen := by
  induction l generalizing seen with
  | nil => simp [dedupByAux]
  | cons x xs ih =>
    simp only [dedupByAux]
    by_cases hx : f x ∈ seen
    · rw [if_pos hx]
      exact ih seen
    · rw [if_neg hx]
      obtain ⟨hnd, hns⟩ := ih (f x :: seen)
      refine ⟨List.nodup_cons.mpr ⟨fun hmem => ?_, hnd⟩, ?_⟩
      · exact (hns _ hmem) (List.mem_cons_self _ _)
      · intro k hk
        rcases List.mem_cons.mp hk with hk | hk
        · exact hk ▸ hx
        · exact fun hks => (hns k hk) (List.mem_cons_of_mem _ hks)

theorem mem_keys_dedupByAux [DecidableEq κ] (f : α → κ) (seen : List κ)
    (l : List α) (k : κ) (hk : k ∈ l.map f) (hns : k ∉ seen) :
    k ∈ (dedupByAux f seen l).map f := by
  induction l generalizing seen with
  | nil => simp at hk
  | cons x xs ih =>
    simp only [dedupByAux]
    rcases List.mem_cons.mp hk with hk0 | hk0
    · by_cases hx : f x ∈ seen
      · rw [if_pos hx]
        exact absurd (hk0 ▸ hx) hns
      · rw [if_neg hx, List.map_cons]
        exact hk0 ▸ List.mem_cons_self _ _
    · by_cases hx : f x ∈ seen
      · rw [if_pos hx]
        exact ih seen hk0 hns
      · rw [if_neg hx, List.map_cons]
        by_cases hkx : k = f x
        · exact hkx ▸ List.mem_cons_self _ _
        · refine List.mem_cons_of_mem _ (ih (f x :: seen) hk0 ?_)
          intro hmem
          rcases List.mem_cons.mp hmem with h | h
          · exact hkx h
          · exact hns h

theorem find?_dedupByAux [DecidableEq κ] (f : α → κ) (seen : List κ)
    (l : List α) (k : κ) (hns : k ∉ seen) :
    (dedupByAux f seen l).find? (fun x => decide (f x = k)) =
      l.find? (fun x => decide (f x = k)) := by
  induction l generalizing seen with
  | nil => simp [dedupByAux]
  | cons x xs ih =>
    simp only [dedupByAux]
    by_cases hx : f x ∈ seen
    · rw [if_pos hx, ih seen hns]
      have hxk : ¬(f x = k) := fun h => hns (h ▸ hx)
      rw [List.find?_cons]
      simp [hxk]
    · rw [if_neg hx]
      by_cases hxk : f x = k
      · rw [List.find?_cons, List.find?_cons]
        simp [hxk]
      · rw [List.find?_cons, List.find?_cons]
        simp only [hxk, decide_eq_false, Bool.false_eq_true, if_false]
        refine ih (f x :: seen) ?_
        intro hmem
        rcases List.mem_cons.mp hmem with h | h
        · exact hxk h.symm
        · exact hns h

theorem dedupBy_nodup_keys [DecidableEq κ] (f : α → κ) (l : List α) :
    ((dedupBy f l).map f).Nodup :=
  (dedupByAux_keys f [] l).1

theorem mem_keys_dedupBy [DecidableEq κ] (f : α → κ) (l : List α) (k : κ)
    (hk : k ∈ l.map f) : k ∈ (dedupBy f l).map f :=
  mem_keys_dedupByAux f [] l k hk (by simp)

theorem find?_dedupBy [DecidableEq κ] (f : α → κ) (l : List α) (k : κ) :
    (dedupBy f l).find? (fun x => decide (f x = k)) =
      l.find? (fun x => decide (f x = k)) :=
  find?_dedupByAux f [] l k (by simp)

theorem sum_countP_partition [DecidableEq κ] (f : α → κ) (ks : List κ)
    (l : List α) (hnd : ks.Nodup) (hcov : ∀ x ∈ l, f x ∈ ks) :
    (ks.map (fun k => l.countP (fun x => decide (f x = k)))).sum = l.length := by
  induction ks generalizing l with
  | nil =>
    cases l with
    | nil => simp
    | cons a t => exact absurd (hcov a (List.mem_cons_self a t)) (by simp)
  | cons k kt ih =>
    simp only [List.map_cons, List.sum_cons]
    have hnd' : kt.Nodup := (List.nodup_cons.mp hnd).2
    have hkn : k ∉ kt := (List.nodup_cons.mp hnd).1
    have hcov' : ∀ x ∈ l.filter (fun x => !decide (f x = k)), f x ∈ kt := by
      intro x hx
      obtain ⟨hx1, hx2⟩ := List.mem_filter.mp hx
      rcases List.mem_cons.mp (hcov x hx1) with h | h
      · simp [h] at hx2
      · exact h
    have hterm : ∀ j ∈ kt,
        (l.filter (fun x => !decide (f x = k))).countP (fun x => decide (f x = j)) =
          l.countP (fun x => decide (f x = j)) := by
      intro j hj
      rw [List.countP_filter]
      have hjk : j ≠ k := fun e => hkn (e ▸ hj)
      have : (fun a => decide (f a = j) && !decide (f a = k)) =
          (fun a => decide (f a = j)) := by
        funext a
        by_cases h : f a = j
        · have hnk : ¬(f a = k) := fun e => hjk (by rw [← h, e])
          simp [h, hnk, hjk]
        · simp [h]
      rw [this]
    have hstep := ih (l.filter (fun x => !decide (f x = k))) hnd' hcov'
    have hmapeq : kt.map (fun j => l.countP (fun x => decide (f x = j))) =
        kt.map (fun j =>
          (l.filter (fun x => !decide (f x = k))).countP (fun x => decide (f x = j))) := by
      refine List.map_congr_left ?_
      intro j hj
      exact (hterm j hj).symm
    rw [hmapeq, hstep]
    have hfun : (fun x => !decide (f x = k)) =
        (fun a => decide ¬(decide (f a = k) = true)) := by
      funext a
      by_cases h : f a = k <;> simp [h]
    rw [hfun, ← List.countP_eq_length_filter]
    exact (List.length_eq_countP_add_countP _ l).symm

theorem sortRecords_perm (o : KOrd K) (key : InstanceRecord → K)
    (g : List InstanceRecord) : (sortRecords o key g).Perm g :=
  List.perm_insertionSort _ _

theorem sortGroup_perm (hasInst hasPos hasTime : Bool) (g : List InstanceRecord) :
    (sortGroup hasInst hasPos hasTime g).Perm g := by
  unfold sortGroup
  split_ifs <;> exact List.perm_insertionSort _ _

theorem sortRecords_sorted (o : KOrd K) (key : InstanceRecord → K)
    (g : List InstanceRecord) :
    List.Sorted (lexLeP o key pathOf) (sortRecords o key g) :=
  @List.sorted_insertionSort _ _ (lexLeDec o key pathOf)
    (lexLeTotal o key pathOf (fun _ _ h => strOrd.asymm _ _ h))
    (lexLeTrans o key pathOf) g

theorem sortGroup_nil (hasInst hasPos hasTime : Bool) :
    sortGroup hasInst hasPos hasTime [] = [] := by
  unfold sortGroup
  split_ifs <;> rfl

theorem applyRules_no_match (rules : List RegexRule) (s : String)
    (h : rules.all (ruleNoMatch s) = true) : applyRules rules s = .ok s := by
  induction rules with
  | nil => rfl
  | cons rule rest ih =>
    rw [List.all_cons, Bool.and_eq_true] at h
    have h1 := h.1
    unfold ruleNoMatch at h1
    simp only [applyRules]
    cases hp : rule.pattern with
    | none => exact ih h.2
    | some p =>
      rw [hp] at h1
      by_cases hpe : p = ""
      · simp only [if_pos hpe]
        exact ih h.2
      · simp only [if_neg hpe] at h1 ⊢
        cases hc : compileRegex p with
        | none => rw [hc] at h1; simp at h1
        | some r =>
          rw [hc] at h1
          simp only [Bool.not_eq_true'] at h1
          simp only [hc, h1, Bool.false_eq_true, if_false]
          exact ih h.2

theorem applyRules_total (rules : List RegexRule) (s : String)
    (h : rules.all ruleOk = true) : ∃ out, applyRules rules s = .ok out := by
  induction rules with
  | nil => exact ⟨s, rfl⟩
  | cons rule rest ih =>
    rw [List.all_cons, Bool.and_eq_true] at h
    have h1 := h.1
    unfold ruleOk at h1
    simp only [applyRules]
    cases hp : rule.pattern with
    | none => exact ih h.2
    | some p =>
      rw [hp] at h1
      by_cases hpe : p = ""
      · simp only [if_pos hpe]
        exact ih h.2
      · simp only [if_neg hpe]
        simp [hpe] at h1
        cases hc : compileRegex p with
        | none => rw [hc] at h1; simp at h1
        | some r =>
          cases hm : reSearch r s.data
          · simp only [hc, hm, Bool.false_eq_true, if_false]
            exact ih h.2
          · refine ⟨String.mk (reSub r rule.replace.data s.data), ?_⟩
            simp [hc, hm]

theorem normalize_no_match_eq_strip (cfg : Cfg) (n : String) (hn : n ≠ "")
    (hmap : cfg.protocol_map.lookup (pyStrip n) = none)
    (hr : cfg.protocol_regex.all (ruleNoMatch (pyStrip n)) = true) :
    normalize_protocol (some n) cfg = .ok (pyStrip n) := by
  simp only [normalize_protocol, if_neg hn, hmap]
  exact applyRules_no_match _ _ hr

theorem stripChars_all_space (l : List Char) (h : ∀ c ∈ l, isPySpace c = true) :
    stripChars l = [] := by
  unfold stripChars
  have h1 : l.dropWhile isPySpace = [] := List.dropWhile_eq_nil_iff.mpr h
  rw [h1]
  rfl

theorem dedupBy_id_nodup [DecidableEq κ] (l : List κ) : (dedupBy id l).Nodup := by
  have h := dedupBy_nodup_keys id l
  rwa [List.map_id] at h

theorem mem_dedupBy_id [DecidableEq κ] (l : List κ) (k : κ) :
    k ∈ dedupBy id l ↔ k ∈ l := by
  constructor
  · exact fun h => mem_of_mem_dedupByAux id [] l k h
  · intro h
    have h1 : k ∈ l.map id := by
      rw [List.map_id]
      exact h
    have h2 := mem_keys_dedupBy id l k h1
    rwa [List.map_id] at h2

theorem sorted_head_le_mem (a : ℤ) (rest : List ℤ)
    (hs : List.Sorted (· ≤ ·) (a :: rest)) : ∀ x ∈ a :: rest, a ≤ x := by
  intro x hx
  rcases List.mem_cons.mp hx with he | hm
  · exact he ▸ le_refl a
  · exact (List.sorted_cons.mp hs).1 x hm

theorem sorted_le_getLastD (l : List ℤ) (hs : List.Sorted (· ≤ ·) l) (d : ℤ) :
    ∀ x ∈ l, x ≤ l.getLastD d := by
  induction l generalizing d with
  | nil => intro x hx; cases hx
  | cons a rest ih =>
    intro x hx
    rw [List.getLastD_cons]
    obtain ⟨hhead, hrest⟩ := List.sorted_cons.mp hs
    rcases List.mem_cons.mp hx with he | hm
    · cases rest with
      | nil => simp [he, List.getLastD]
      | cons b bs =>
        have hb : b ≤ (b :: bs).getLastD a :=
          ih hrest a b (List.mem_cons_self _ _)
        exact le_trans (he ▸ hhead b (List.mem_cons_self _ _)) hb
    · exact ih hrest a x hm

theorem getLastD_mem (l : List α) (hne : l ≠ []) (d : α) : l.getLastD d ∈ l := by
  induction l generalizing d with
  | nil => exact absurd rfl hne
  | cons a rest ih =>
    rw [List.getLastD_cons]
    cases rest with
    | nil => simp [List.getLastD]
    | cons b bs => exact List.mem_cons_of_mem _ (ih (by simp) a)

theorem mem_intRangeIncl (lo hi m : ℤ) :
    m ∈ intRangeIncl lo hi ↔ lo ≤ m ∧ m ≤ hi := by
  unfold intRangeIncl
  simp only [List.mem_map, List.mem_range]
  constructor
  · rintro ⟨i, hi2, rfl⟩
    omega
  · rintro ⟨h1, h2⟩
    exact ⟨(m - lo).toNat, by omega, by omega⟩

theorem pairwise_lt_intRangeIncl (lo hi : ℤ) :
    List.Pairwise (· < ·) (intRangeIncl lo hi) := by
  unfold intRangeIncl
  refine List.pairwise_map.mpr ?_
  refine (List.pairwise_lt_range _).imp ?_
  intro a b h
  omega

theorem intRangeIncl_length (lo hi : ℤ) :
    (intRangeIncl lo hi).length = (hi + 1 - lo).toNat := by
  simp [intRangeIncl]

theorem gapRowFor_sid (df : List InstanceRecord) (k : Option String) (w : GapRow)
    (h : gapRowFor df k = some w) : w.sid = k := by
  simp only [gapRowFor] at h
  cases hm : intSort ((df.filter (fun r => decide (r.seriesUID = k))).filterMap parsedIN) with
  | nil =>
    rw [hm] at h
    simp at h
  | cons a rest =>
    rw [hm] at h
    simp only [Option.some.injEq] at h
    rw [← h]

theorem filter_filterMap_key {β : Type} [DecidableEq κ] (F : κ → Option β)
    (sidOf : β → κ) (hpres : ∀ k w, F k = some w → sidOf w = k)
    (keys : List κ) (hnd : keys.Nodup) (k : κ) (hk : k ∈ keys) (row : β)
    (hrow : F k = some row) :
    (keys.filterMap F).filter (fun w => decide (sidOf w = k)) = [row] := by
  induction keys with
  | nil => cases hk
  | cons x xs ih =>
    rw [List.nodup_cons] at hnd
    rcases List.mem_cons.mp hk with he | hm
    · have hrowx : F x = some row := by
        rw [← he]
        exact hrow
      rw [List.filterMap_cons_some hrowx, List.filter_cons,
        if_pos (by simp [hpres k row hrow, he])]
      have hnil : (xs.filterMap F).filter (fun w => decide (sidOf w = k)) = [] := by
        rw [List.filter_eq_nil_iff]
        intro w hw
        obtain ⟨j, hj_mem, hj⟩ := List.mem_filterMap.mp hw
        have hwj : sidOf w = j := hpres j w hj
        simp only [decide_eq_true_eq, hwj]
        intro hjk
        exact hnd.1 (by rw [← he, ← hjk]; exact hj_mem)
      rw [hnil]
    · have hxk : x ≠ k := fun e => hnd.1 (e ▸ hm)
      cases hFx : F x with
      | none =>
        rw [List.filterMap_cons_none hFx]
        exact ih hnd.2 hm
      | some w =>
        rw [List.filterMap_cons_some hFx, List.filter_cons,
          if_neg (by simp [hpres x w hFx, hxk])]
        exact ih hnd.2 hm

theorem filter_key_eq_singleton [DecidableEq κ] (f : α → κ) (l : List α)
    (hnd : (l.map f).Nodup) (r : α) (hr : r ∈ l) (k : κ) (hfk : f r = k) :
    l.filter (fun x => decide (f x = k)) = [r] := by
  induction l with
  | nil => cases hr
  | cons x xs ih =>
    rw [List.map_cons, List.nodup_cons] at hnd
    rcases List.mem_cons.mp hr with he | hm
    · rw [List.filter_cons, if_pos (by simp [← he, hfk])]
      have hnil : xs.filter (fun x => decide (f x = k)) = [] := by
        rw [List.filter_eq_nil_iff]
        intro a ha
        simp only [decide_eq_true_eq]
        intro hak
        exact hnd.1 (by rw [← he, hfk, ← hak]; exact List.mem_map_of_mem f ha)
      rw [hnil, he]
    · have hx : ¬(f x = k) := by
        intro e
        exact hnd.1 (by rw [e, ← hfk]; exact List.mem_map_of_mem f hm)
      rw [List.filter_cons, if_neg (by simp [hx])]
      exact ih hnd.2 hm

/-- **C2** — counterexample.  The claim says a malformed regex pattern is
treated as non-matching and no exception escapes `normalize`; in the code
`re.search` is called with no handler, so the malformed pattern `"("`
raises `re.error`, which escapes `normalize_protocol`. -/
theorem c2_malformed_pattern_raises :
    compileRegex "(" = none ∧
    normalize_protocol (some "zzz") (Cfg.mk [] [RegexRule.mk (some "(") "X"]) =
      .error "re.error" :=
  ⟨rfl, rfl⟩

/-- **C2** — amended claim: for every rule set all of whose regex rules
have a well-formed (or absent/empty, hence skipped) pattern, and every
label, `normalize_protocol` terminates normally and returns a string; a
well-formed pattern that does not match is treated as non-matching. -/
theorem c2_normalize_total_of_wellformed (name : Option String) (cfg : Cfg)
    (h : cfg.protocol_regex.all ruleOk = true) :
    ∃ out, normalize_protocol name cfg = .ok out := by
  cases name with
  | none => exact ⟨"NA", rfl⟩
  | some n =>
    by_cases hn : n = ""
    · exact ⟨"NA", by simp [normalize_protocol, hn]⟩
    · simp only [normalize_protocol, if_neg hn]
      cases hl : cfg.protocol_map.lookup (pyStrip n) with
      | some v => exact ⟨v, rfl⟩
      | none => exact applyRules_total _ _ h

/-- Witness for the amended C2 at a concrete rule set (one absent pattern,
one empty, one well-formed). -/
theorem c2_normalize_total_witness :
    ∃ out, normalize_protocol (some "chest ct")
      (Cfg.mk [("x", "y")]
        [RegexRule.mk none "", RegexRule.mk (some "") "z",
          RegexRule.mk (some "a+") "Q"]) = .ok out :=
  c2_normalize_total_of_wellformed _ _ (by decide)

/-- **C3** — counterexample.  The claim says an unreadable configuration
degrades to the empty rule set; in the code an existing but unreadable
file makes `open` raise with no handler in `load_config`. -/
theorem c3_unreadable_config_raises :
    load_config (some "config.yaml") (fun _ => YamlFile.unreadable) =
      .error "OSError" :=
  rfl

/-- **C3** — amended claim: a configuration path that is absent
(`None`/empty) or names a non-existing file makes `load_config` return the
empty rule set rather than raising; only existing-but-unreadable (or
unparseable) files raise. -/
theorem c3_load_config_absent_empty (path : Option String)
    (fs : String → YamlFile)
    (h : path = none ∨ ∃ p, path = some p ∧ (p = "" ∨ fs p = YamlFile.missing)) :
    load_config path fs = .ok emptyCfg := by
  rcases h with h | ⟨p, hp, hcase⟩
  · rw [h]
    rfl
  · rw [hp]
    rcases hcase with he | hm
    · simp only [load_config, if_pos he]
    · by_cases he : p = ""
      · simp only [load_config, if_pos he]
      · simp only [load_config, if_neg he, hm]

/-- Witness for the amended C3 at a concrete missing file. -/
theorem c3_load_config_witness :
    load_config (some "missing.yaml") (fun _ => YamlFile.missing) = .ok emptyCfg :=
  c3_load_config_absent_empty _ _ (Or.inr ⟨"missing.yaml", rfl, Or.inr rfl⟩)

/-- **C6** — counterexample.  The claim says an unmatched non-empty label
is returned unchanged (identity); the code strips surrounding whitespace
first, so the label `" x "` comes back as `"x"`. -/
theorem c6_identity_counterexample :
    normalize_protocol (some " x ") emptyCfg = .ok "x" ∧ ("x" : String) ≠ " x " :=
  ⟨rfl, by decide⟩

/-- **C6** — amended claim: for every rule set and every non-empty label
whose stripped form is matched by no exact-match entry and fired on by no
regex rule, `normalize_protocol` returns the *stripped* label unchanged
(identity on labels with no surrounding whitespace). -/
theorem c6_no_match_returns_stripped (cfg : Cfg) (n : String) (hn : n ≠ "")
    (hmap : cfg.protocol_map.lookup (pyStrip n) = none)
    (hr : cfg.protocol_regex.all (ruleNoMatch (pyStrip n)) = true) :
    normalize_protocol (some n) cfg = .ok (pyStrip n) :=
  normalize_no_match_eq_strip cfg n hn hmap hr

/-- Witness for the amended C6 at a concrete unmatched label. -/
theorem c6_no_match_witness :
    normalize_protocol (some "abc")
      (Cfg.mk [("other", "OTHER")] [RegexRule.mk (some "xyz") "Q"]) =
      .ok (pyStrip "abc") :=
  c6_no_match_returns_stripped _ "abc" (by decide) (by decide) (by decide)

/-- **C9** — counterexample.  The claim says a label with an exact-match
entry in the table gets that entry's canonical value; the lookup key is
the *stripped* label, so a table entry keyed by `" x "` (with surrounding
whitespace) is never found for the label `" x "`, which instead passes
through as `"x"`. -/
theorem c9_exact_match_counterexample :
    (Cfg.mk [(" x ", "A")] []).protocol_map.lookup " x " = some "A" ∧
    normalize_protocol (some " x ") (Cfg.mk [(" x ", "A")] []) = .ok "x" ∧
    ("x" : String) ≠ "A" :=
  ⟨rfl, rfl, by decide⟩

/-- **C9** — amended claim: for every rule set and every non-empty label
whose *stripped* form has an exact-match entry, `normalize_protocol`
returns that entry's canonical label, for every list of regex rules
whatsoever — exact matches take precedence over regex rules. -/
theorem c9_exact_match_precedence (pm : List (String × String))
    (rules : List RegexRule) (n v : String) (hn : n ≠ "")
    (hv : pm.lookup (pyStrip n) = some v) :
    normalize_protocol (some n) (Cfg.mk pm rules) = .ok v := by
  simp only [normalize_protocol, if_neg hn, hv]

/-- Witness for the amended C9: the exact entry wins even though a
malformed regex rule (which would raise if reached) is present. -/
theorem c9_exact_match_witness :
    normalize_protocol (some "ct head")
      (Cfg.mk [("ct head", "CT_HEAD")] [RegexRule.mk (some "(") "X"]) =
      .ok "CT_HEAD" :=
  c9_exact_match_precedence _ _ "ct head" "CT_HEAD" (by decide) (by decide)

/-- **C10** — confirmed: for a rule set with no exact entry for `""` and
no regex rule firing on `""`, a whitespace-only label normalizes to the
empty string (the stripped label), not the `"NA"` placeholder; the
placeholder is produced for the absent label and for the empty string
itself. -/
theorem c10_whitespace_label (cfg : Cfg) (n : String) (hn : n ≠ "")
    (hws : n.data.all isPySpace = true)
    (hmap : cfg.protocol_map.lookup "" = none)
    (hr : cfg.protocol_regex.all (ruleNoMatch "") = true) :
    normalize_protocol (some n) cfg = .ok "" ∧
      ("" : String) ≠ "NA" ∧
      normalize_protocol none cfg = .ok "NA" ∧
      normalize_protocol (some "") cfg = .ok "NA" := by
  have hstrip : pyStrip n = "" := by
    unfold pyStrip
    rw [stripChars_all_space n.data (List.all_eq_true.mp hws)]
  refine ⟨?_, by decide, rfl, by simp [normalize_protocol]⟩
  have h2 : cfg.protocol_map.lookup (pyStrip n) = none := by rw [hstrip]; exact hmap
  have h3 : cfg.protocol_regex.all (ruleNoMatch (pyStrip n)) = true := by
    rw [hstrip]; exact hr
  have h4 := normalize_no_match_eq_strip cfg n hn h2 h3
  rw [hstrip] at h4
  exact h4

/-- Witness for C10 at a concrete whitespace-only label. -/
theorem c10_whitespace_witness :
    normalize_protocol (some "  ") emptyCfg = .ok "" ∧
      ("" : String) ≠ "NA" ∧
      normalize_protocol none emptyCfg = .ok "NA" ∧
      normalize_protocol (some "") emptyCfg = .ok "NA" :=
  c10_whitespace_label emptyCfg "  " (by decide) (by decide) (by decide) (by decide)

/-- **C7** — counterexample.  The claim's "if and only if" fails when none
of the four identifier columns exists in the record set: the report is
empty (the code returns early), yet the record lacks non-empty values for
all four mandatory identifiers. -/
theorem c7_missing_tags_counterexample :
    missing_critical_tags false false false false [{ path := "a" }] = [] ∧
    hasCriticalTags { path := "a" } = false :=
  ⟨rfl, rfl⟩

/-- **C7** — amended claim: the missing-critical-tags report is empty if
and only if every record has a non-empty value in each of the four
mandatory identifier columns that are *present* in the record set; when
none of the four columns is present, the report is empty regardless. -/
theorem c7_missing_tags_empty_iff (pPat pStu pSer pSop : Bool)
    (df : List InstanceRecord) :
    missing_critical_tags pPat pStu pSer pSop df = [] ↔
      ∀ r ∈ df,
        (pPat = true → isMissingVal r.patientID = false) ∧
        (pStu = true → isMissingVal r.studyUID = false) ∧
        (pSer = true → isMissingVal r.seriesUID = false) ∧
        (pSop = true → isMissingVal r.sopUID = false) := by
  unfold missing_critical_tags
  by_cases hp : (pPat || pStu || pSer || pSop) = true
  · rw [if_pos hp, List.filter_eq_nil_iff]
    refine forall_congr' (fun r => imp_congr_right (fun hr => ?_))
    generalize isMissingVal r.patientID = A
    generalize isMissingVal r.studyUID = B
    generalize isMissingVal r.seriesUID = C
    generalize isMissingVal r.sopUID = D
    revert hp A B C D
    revert pPat pStu pSer pSop
    decide
  · rw [if_neg hp]
    have h4 : pPat = false ∧ pStu = false ∧ pSer = false ∧ pSop = false := by
      revert hp
      cases pPat <;> cases pStu <;> cases pSer <;> cases pSop <;> simp
    obtain ⟨e1, e2, e3, e4⟩ := h4
    subst e1
    subst e2
    subst e3
    subst e4
    simp

/-- **C4** — counterexample.  The per-group instance count is a pandas
`count` of the unique-instance-identifier column, which counts only
non-null values: a record with a missing `SOPInstanceUID` is grouped but
not counted, so the sum of group counts (0) differs from the
deduplicated-by-path record total (1).  (The code also never deduplicates
by path at all.) -/
theorem c4_roundtrip_counterexample :
    ((seriesAgg [{ path := "a" }]).map (fun p => p.2)).sum = 0 ∧
    dedupByPathCount [{ path := "a" }] = 1 ∧ (0 : Nat) ≠ 1 := by
  refine ⟨by decide, by decide, by decide⟩

/-- **C4** — amended claim: the series-level aggregation partitions the
records — the group keys are pairwise distinct, every record's key is
among them (absent key values form their own group), and the group sizes
sum to the total record count (no deduplication of any kind) — and the sum
over all groups of the per-group instance count equals the number of
records with a *non-null* unique instance identifier. -/
theorem c4_partition_and_counts (df : List InstanceRecord) :
    ((seriesGroups df).map Prod.fst).Nodup ∧
    (∀ r ∈ df, seriesKey r ∈ (seriesGroups df).map Prod.fst) ∧
    ((seriesGroups df).map (fun p => p.2.length)).sum = df.length ∧
    ((seriesAgg df).map (fun p => p.2)).sum =
      df.countP (fun r => r.sopUID.isSome) := by
  have hkeys : (seriesGroups df).map Prod.fst = dedupBy id (df.map seriesKey) := by
    unfold seriesGroups
    rw [List.map_map]
    have h : (Prod.fst ∘ fun k : SeriesKey =>
        (k, df.filter (fun r => decide (seriesKey r = k)))) = id := by
      funext k
      rfl
    rw [h, List.map_id]
  have hnd : (dedupBy id (df.map seriesKey)).Nodup := by
    have h := dedupBy_nodup_keys id (df.map seriesKey)
    rwa [List.map_id] at h
  have hcov : ∀ r ∈ df, seriesKey r ∈ dedupBy id (df.map seriesKey) := by
    intro r hr
    have h1 : seriesKey r ∈ (df.map seriesKey).map id := by
      rw [List.map_id]
      exact List.mem_map_of_mem _ hr
    have h2 := mem_keys_dedupBy id (df.map seriesKey) (seriesKey r) h1
    rwa [List.map_id] at h2
  refine ⟨hkeys ▸ hnd, fun r hr => hkeys ▸ hcov r hr, ?_, ?_⟩
  · unfold seriesGroups
    rw [List.map_map]
    have hconv :
        ((fun p : SeriesKey × List InstanceRecord => p.2.length) ∘
          fun k => (k, df.filter (fun r => decide (seriesKey r = k)))) =
        fun k => df.countP (fun r => decide (seriesKey r = k)) := by
      funext k
      show (df.filter (fun r => decide (seriesKey r = k))).length = _
      rw [List.countP_eq_length_filter]
    rw [hconv]
    exact sum_countP_partition seriesKey _ df hnd hcov
  · unfold seriesAgg seriesGroups
    rw [List.map_map, List.map_map]
    have hconv :
        (((fun p : SeriesKey × Nat => p.2) ∘
          fun p : SeriesKey × List InstanceRecord =>
            (p.1, p.2.countP (fun r => r.sopUID.isSome))) ∘
            fun k => (k, df.filter (fun r => decide (seriesKey r = k)))) =
        fun k => (df.filter (fun r => r.sopUID.isSome)).countP
          (fun r => decide (seriesKey r = k)) := by
      funext k
      show (df.filter (fun r => decide (seriesKey r = k))).countP
        (fun r => r.sopUID.isSome) = _
      rw [List.countP_filter, List.countP_filter]
      congr 1
      funext r
      exact Bool.and_comm _ _
    rw [hconv]
    have hcov2 : ∀ r ∈ df.filter (fun r => r.sopUID.isSome),
        seriesKey r ∈ dedupBy id (df.map seriesKey) :=
      fun r hr => hcov r (List.mem_filter.mp hr).1
    rw [sum_countP_partition seriesKey _ _ hnd hcov2]
    rw [List.countP_eq_length_filter]

/-- **C5** — counterexample.  The claim says the record kept for a
duplicated identifier is the first by the *resolved sort order*; the code
deduplicates *before* sorting, keeping the first record in input order.
Here both records share `SOPInstanceUID "X"`; the resolved sort order
(numeric instance number) puts the record with number 1 — path `"a"` —
first, so the claim predicts `"a"` is kept, but the output keeps `"b"`,
the first seen in input order. -/
theorem c5_keep_first_counterexample :
    (organizeGroup true true true true
      [{ path := "b", sopUID := some "X", instanceNumber := some "2" },
        { path := "a", sopUID := some "X", instanceNumber := some "1" }]).map
      (fun r => r.path) = ["b"] ∧
    (sortGroup true true true
      [{ path := "b", sopUID := some "X", instanceNumber := some "2" },
        { path := "a", sopUID := some "X", instanceNumber := some "1" }]).map
      (fun r => r.path) = ["a", "b"] ∧
    ("b" : String) ≠ "a" :=
  ⟨by decide, by decide, by decide⟩

/-- **C5** — amended claim: for every group, duplicate records sharing a
unique instance identifier produce exactly one record in the Organizer's
output (hence exactly one materialized file and one manifest row, with
materialization modelled as succeeding), and the record kept is the first
*seen in the group's input order* — deduplication happens before the sort
order is applied. -/
theorem c5_organize_dedup_keeps_first (hasInst hasPos hasTime : Bool)
    (padArg : Nat) (g : List InstanceRecord) (k : Option String)
    (hk : k ∈ g.map (fun r => r.sopUID)) :
    ∃ r, g.find? (fun x => decide (x.sopUID = k)) = some r ∧
      (organizeGroup true hasInst hasPos hasTime g).filter
        (fun x => decide (x.sopUID = k)) = [r] ∧
      (manifestRows padArg (organizeGroup true hasInst hasPos hasTime g)).length =
        (organizeGroup true hasInst hasPos hasTime g).length := by
  have hmemk : k ∈ (dedupBySop g).map (fun r => r.sopUID) :=
    mem_keys_dedupBy (fun r => r.sopUID) g k hk
  obtain ⟨rd, hrd_mem, hrd_key⟩ := List.mem_map.mp hmemk
  have hsome : ((dedupBySop g).find? (fun x => decide (x.sopUID = k))).isSome :=
    List.find?_isSome.mpr ⟨rd, hrd_mem, by simp [hrd_key]⟩
  obtain ⟨r, hr⟩ := Option.isSome_iff_exists.mp hsome
  have hr_g : g.find? (fun x => decide (x.sopUID = k)) = some r := by
    rw [← find?_dedupBy (fun x => x.sopUID) g k]
    exact hr
  refine ⟨r, hr_g, ?_, ?_⟩
  · have hr_mem : r ∈ dedupBySop g := List.mem_of_find?_eq_some hr
    have hr_key : r.sopUID = k := by
      have h := List.find?_some hr
      simpa using h
    have hnd : ((dedupBySop g).map (fun x => x.sopUID)).Nodup :=
      dedupBy_nodup_keys (fun r => r.sopUID) g
    have hfil_d : (dedupBySop g).filter (fun x => decide (x.sopUID = k)) = [r] :=
      filter_key_eq_singleton (fun x => x.sopUID) _ hnd r hr_mem k hr_key
    have hperm : (organizeGroup true hasInst hasPos hasTime g).Perm (dedupBySop g) :=
      sortGroup_perm hasInst hasPos hasTime (dedupBySop g)
    have hfil := List.Perm.filter (fun x => decide (x.sopUID = k)) hperm
    rw [hfil_d] at hfil
    exact List.perm_singleton.mp hfil
  · simp [manifestRows]

/-- Witness for the amended C5 at a concrete duplicated identifier. -/
theorem c5_keep_first_witness :
    ∃ r, ([{ path := "b", sopUID := some "X", instanceNumber := some "2" },
        { path := "a", sopUID := some "X", instanceNumber := some "1" }] :
        List InstanceRecord).find? (fun x => decide (x.sopUID = some "X")) =
        some r ∧
      (organizeGroup true true true true
        [{ path := "b", sopUID := some "X", instanceNumber := some "2" },
          { path := "a", sopUID := some "X", instanceNumber := some "1" }]).filter
        (fun x => decide (x.sopUID = some "X")) = [r] ∧
      (manifestRows 0 (organizeGroup true true true true
        [{ path := "b", sopUID := some "X", instanceNumber := some "2" },
          { path := "a", sopUID := some "X", instanceNumber := some "1" }])).length =
        (organizeGroup true true true true
          [{ path := "b", sopUID := some "X", instanceNumber := some "2" },
            { path := "a", sopUID := some "X", instanceNumber := some "1" }]).length :=
  c5_organize_dedup_keeps_first true true true 0 _ (some "X") (by decide)

/-- **C1** — counterexample.  Both records carry an `InstanceNumber`
attribute (so the column exists in the DataFrame — with the fixed key set
of the indexer it always does), but neither value parses; both have
distinct parseable spatial positions (depths 2 and 1).  The claim says the
instance-number strategy is selected only if it yields a usable key for at
least one record, so the depth strategy should order the names ascending
by depth; the code selects the instance-number sort on mere column
presence, degenerating to path order: for either input iteration order the
output is depth-descending `[2, 1]`. -/
theorem c1_sort_strategy_counterexample :
    toNumeric (some "x") = none ∧
    zOf { path := "a", instanceNumber := some "x", imagePositionPatient := some "0\\0\\2" } = some 2 ∧
    zOf { path := "b", instanceNumber := some "x", imagePositionPatient := some "0\\0\\1" } = some 1 ∧
    (sortGroup true true true
      [{ path := "a", instanceNumber := some "x", imagePositionPatient := some "0\\0\\2" },
        { path := "b", instanceNumber := some "x", imagePositionPatient := some "0\\0\\1" }]).map zOf =
      [some 2, some 1] ∧
    (sortGroup true true true
      [{ path := "b", instanceNumber := some "x", imagePositionPatient := some "0\\0\\1" },
        { path := "a", instanceNumber := some "x", imagePositionPatient := some "0\\0\\2" }]).map zOf =
      [some 2, some 1] ∧
    ¬((2 : ℚ) < 1) :=
  ⟨by decide, by decide, by decide, by decide, by decide, by decide⟩

/-- **C1** — amended claim: the ordering strategies are tried by *column
presence*, not per-group usability — the instance-number sort is selected
whenever the `InstanceNumber` column exists (even if no member parses, in
which case the order degenerates to path order); only the spatial-position
strategy checks that at least one member parses.  Consequently the
depth-order guarantee holds for a group whose record set has *no*
`InstanceNumber` column at all: if every member has a parseable spatial
position and the depths are pairwise distinct, the sorted output (whose
1-based positions are the assigned sequential names) is strictly ascending
in depth, independent of input iteration order. -/
theorem c1_depth_order_when_no_instancenumber_column (hasTime : Bool)
    (g : List InstanceRecord)
    (hz : ∀ r ∈ g, (zOf r).isSome = true)
    (hnd : (g.map zOf).Nodup) :
    (sortGroup false true hasTime g).Perm g ∧
    List.Pairwise (fun a b => ∀ qa ∈ zOf a, ∀ qb ∈ zOf b, qa < qb)
      (sortGroup false true hasTime g) := by
  refine ⟨sortGroup_perm _ _ _ _, ?_⟩
  cases g with
  | nil =>
    rw [sortGroup_nil]
    exact List.Pairwise.nil
  | cons x xs =>
    have hany : (x :: xs).any (fun r => (zOf r).isSome) = true :=
      List.any_eq_true.mpr ⟨x, List.mem_cons_self _ _, hz x (List.mem_cons_self _ _)⟩
    have heq : sortGroup false true hasTime (x :: xs) =
        sortRecords (optFirstOrd ratOrd) zOf (x :: xs) := by
      unfold sortGroup
      simp [hany]
    rw [heq]
    have hperm := sortRecords_perm (optFirstOrd ratOrd) zOf (x :: xs)
    have hsort := sortRecords_sorted (optFirstOrd ratOrd) zOf (x :: xs)
    have hnd2 : ((sortRecords (optFirstOrd ratOrd) zOf (x :: xs)).map zOf).Nodup :=
      ((hperm.map zOf).symm).nodup hnd
    have hne : List.Pairwise (fun a b => zOf a ≠ zOf b)
        (sortRecords (optFirstOrd ratOrd) zOf (x :: xs)) :=
      List.pairwise_map.mp hnd2
    have hcomb : List.Pairwise
        (fun a b => lexLeP (optFirstOrd ratOrd) zOf pathOf a b ∧ zOf a ≠ zOf b)
        (sortRecords (optFirstOrd ratOrd) zOf (x :: xs)) :=
      List.Pairwise.and hsort hne
    refine hcomb.imp ?_
    intro a b hab
    obtain ⟨hle, hneq⟩ := hab
    intro qa hqa qb hqb
    have hza : zOf a = some qa := hqa
    have hzb : zOf b = some qb := hqb
    unfold lexLeP lexLeB at hle
    by_cases h1 : (optFirstOrd ratOrd).lt (zOf a) (zOf b) = true
    · rw [hza, hzb] at h1
      exact of_decide_eq_true h1
    · by_cases h2 : (optFirstOrd ratOrd).lt (zOf b) (zOf a) = true
      · rw [if_neg h1, if_pos h2] at hle
        exact absurd hle (by simp)
      · rcases (optFirstOrd ratOrd).tricho (zOf a) (zOf b) with h | h | h
        · exact absurd h h1
        · exact absurd h hneq
        · exact absurd h h2

/-- Witness for the amended C1 at a concrete two-record group with
distinct depths, fed in depth-descending input order. -/
theorem c1_depth_order_witness :
    (sortGroup false true true
      [{ path := "a", imagePositionPatient := some "0\\0\\2" },
        { path := "b", imagePositionPatient := some "0\\0\\1" }]).Perm
      [{ path := "a", imagePositionPatient := some "0\\0\\2" },
        { path := "b", imagePositionPatient := some "0\\0\\1" }] ∧
    List.Pairwise (fun a b => ∀ qa ∈ zOf a, ∀ qb ∈ zOf b, qa < qb)
      (sortGroup false true true
        [{ path := "a", imagePositionPatient := some "0\\0\\2" },
          { path := "b", imagePositionPatient := some "0\\0\\1" }]) :=
  c1_depth_order_when_no_instancenumber_column true _ (by decide) (by decide)

/-- **C8** — confirmed: for every record set (with the `InstanceNumber` and
`SeriesInstanceUID` columns present) and every series with at least one
parseable numeric ordering value, the gap report contains exactly one row
for that series; its `lo`/`hi` are the observed minimum and maximum, its
expected count is the size of the contiguous range, its actual count is
the number of distinct observed values, and its missing values are exactly
the set-difference of the contiguous range against the observed values,
listed ascending, truncated at 50 with an ellipsis indicator appended when
more than 50 are missing.  Series with no parseable values are skipped. -/
theorem c8_detect_instance_gaps (df : List InstanceRecord) (sid : Option String)
    (hne : (df.filter (fun r => decide (r.seriesUID = sid))).filterMap parsedIN ≠ []) :
    (∃ row : GapRow, ∃ missing nums : List ℤ,
      nums = (df.filter (fun r => decide (r.seriesUID = sid))).filterMap parsedIN ∧
      (detect_instance_gaps true true df).filter (fun w => decide (w.sid = sid)) = [row] ∧
      row.lo ∈ nums ∧ (∀ x ∈ nums, row.lo ≤ x) ∧
      row.hi ∈ nums ∧ (∀ x ∈ nums, x ≤ row.hi) ∧
      (∀ m : ℤ, m ∈ missing ↔ (row.lo ≤ m ∧ m ≤ row.hi ∧ m ∉ nums)) ∧
      List.Pairwise (· < ·) missing ∧
      row.nExpected = (row.hi + 1 - row.lo).toNat ∧
      (∃ dvs : List ℤ, dvs.Nodup ∧ (∀ m, m ∈ dvs ↔ m ∈ nums) ∧
        row.nActual = dvs.length) ∧
      row.nMissing = missing.length ∧
      row.missingList = joinCommaInts (missing.take 50) ++
        (if 50 < missing.length then "…" else "")) ∧
    (∀ sid2 : Option String,
      (df.filter (fun r => decide (r.seriesUID = sid2))).filterMap parsedIN = [] →
      ∀ row ∈ detect_instance_gaps true true df, row.sid ≠ sid2) := by
  constructor
  · cases hm : intSort ((df.filter (fun r => decide (r.seriesUID = sid))).filterMap parsedIN) with
    | nil =>
      exfalso
      have hp : (intSort ((df.filter (fun r =>
          decide (r.seriesUID = sid))).filterMap parsedIN)).Perm
          ((df.filter (fun r => decide (r.seriesUID = sid))).filterMap parsedIN) :=
        List.perm_insertionSort _ _
      rw [hm] at hp
      exact hne (List.length_eq_zero.mp hp.length_eq.symm)
    | cons a rest =>
      have hperm : (a :: rest).Perm
          ((df.filter (fun r => decide (r.seriesUID = sid))).filterMap parsedIN) := by
        have hp : (intSort ((df.filter (fun r =>
            decide (r.seriesUID = sid))).filterMap parsedIN)).Perm
            ((df.filter (fun r => decide (r.seriesUID = sid))).filterMap parsedIN) :=
          List.perm_insertionSort _ _
        rwa [hm] at hp
      have hsorted : List.Sorted (· ≤ ·) (a :: rest) := by
        have hs : List.Sorted (· ≤ ·) (intSort ((df.filter (fun r =>
            decide (r.seriesUID = sid))).filterMap parsedIN)) :=
          List.sorted_insertionSort _ _
        rwa [hm] at hs
      obtain ⟨row, hrow⟩ : ∃ w, gapRowFor df sid = some w := by
        simp only [gapRowFor, hm]
        exact ⟨_, rfl⟩
      have hfields := hrow
      simp only [gapRowFor, hm, Option.some.injEq] at hfields
      subst hfields
      have hkeys_perm : (serKeySort (dedupBy id (df.map (fun r => r.seriesUID)))).Perm
          (dedupBy id (df.map (fun r => r.seriesUID))) := List.perm_insertionSort _ _
      have hkeys_nodup : (serKeySort (dedupBy id (df.map (fun r => r.seriesUID)))).Nodup :=
        (hkeys_perm.symm).nodup (dedupBy_id_nodup _)
      have ha_mem : a ∈ (df.filter (fun r => decide (r.seriesUID = sid))).filterMap parsedIN :=
        hperm.subset (List.mem_cons_self _ _)
      have hsid_mem : sid ∈ serKeySort (dedupBy id (df.map (fun r => r.seriesUID))) := by
        obtain ⟨r, hr_grp, _⟩ := List.mem_filterMap.mp ha_mem
        obtain ⟨hr_df, hr_key⟩ := List.mem_filter.mp hr_grp
        have hkey : r.seriesUID = sid := of_decide_eq_true hr_key
        have h1 : sid ∈ df.map (fun r => r.seriesUID) :=
          List.mem_map.mpr ⟨r, hr_df, hkey⟩
        exact hkeys_perm.mem_iff.mpr ((mem_dedupBy_id _ _).mpr h1)
      have hfilter : (detect_instance_gaps true true df).filter
          (fun w => decide (w.sid = sid)) = [_] :=
        filter_filterMap_key (gapRowFor df) GapRow.sid (gapRowFor_sid df)
          _ hkeys_nodup sid hsid_mem _ hrow
      refine ⟨_,
        (intRangeIncl a (List.getLastD (a :: rest) a)).filter
          (fun m => decide ¬(m ∈ a :: rest)),
        _, rfl, hfilter, ?_, ?_, ?_, ?_, ?_, ?_, ?_, ?_, ?_, ?_⟩
      · exact ha_mem
      · intro x hx
        exact sorted_head_le_mem a rest hsorted x (hperm.mem_iff.mpr hx)
      · exact hperm.subset (getLastD_mem (a :: rest) (by simp) a)
      · intro x hx
        exact sorted_le_getLastD (a :: rest) hsorted a x (hperm.mem_iff.mpr hx)
      · intro m
        rw [List.mem_filter, mem_intRangeIncl]
        simp only [decide_eq_true_eq]
        constructor
        · rintro ⟨⟨h1, h2⟩, h3⟩
          exact ⟨h1, h2, fun hmem => h3 (hperm.mem_iff.mpr hmem)⟩
        · rintro ⟨h1, h2, h3⟩
          exact ⟨⟨h1, h2⟩, fun hmem => h3 (hperm.mem_iff.mp hmem)⟩
      · exact (pairwise_lt_intRangeIncl a _).filter _
      · exact intRangeIncl_length a _
      · refine ⟨dedupBy id (a :: rest), dedupBy_id_nodup _, ?_, rfl⟩
        intro m
        exact Iff.trans (mem_dedupBy_id _ m) hperm.mem_iff
      · rfl
      · rfl
  · intro sid2 hempty row hrow2 hsid
    have hdet : detect_instance_gaps true true df =
        (serKeySort (dedupBy id (df.map (fun r => r.seriesUID)))).filterMap
          (gapRowFor df) := rfl
    rw [hdet] at hrow2
    obtain ⟨kk, hkk_mem, hkk⟩ := List.mem_filterMap.mp hrow2
    have hks : row.sid = kk := gapRowFor_sid df kk row hkk
    have hk2 : kk = sid2 := by rw [← hks, hsid]
    rw [hk2] at hkk
    simp only [gapRowFor] at hkk
    have hint : intSort ((df.filter (fun r =>
        decide (r.seriesUID = sid2))).filterMap parsedIN) = [] := by
      rw [hempty]
      rfl
    rw [hint] at hkk
    simp at hkk

/-- Witness for C8 on the claim's concrete series: observed ordering
values `{1, 2, 4, 5}` give exactly one report row with
`missing = "3"`, `n_expected = 5`, `n_actual = 4`. -/
theorem c8_detect_gaps_witness :
    (∃ row : GapRow, (detect_instance_gaps true true
      [{ path := "p1", seriesUID := some "S", instanceNumber := some "1" },
        { path := "p2", seriesUID := some "S", instanceNumber := some "2" },
        { path := "p3", seriesUID := some "S", instanceNumber := some "4" },
        { path := "p4", seriesUID := some "S", instanceNumber := some "5" }]).filter
      (fun w => decide (w.sid = some "S")) = [row]) ∧
    (detect_instance_gaps true true
      [{ path := "p1", seriesUID := some "S", instanceNumber := some "1" },
        { path := "p2", seriesUID := some "S", instanceNumber := some "2" },
        { path := "p3", seriesUID := some "S", instanceNumber := some "4" },
        { path := "p4", seriesUID := some "S", instanceNumber := some "5" }]).map
      (fun w => (w.sid, w.lo, w.hi, w.nExpected, w.nActual, w.nMissing, w.missingList)) =
      [(some "S", 1, 5, 5, 4, 1, "3")] := by
  constructor
  · obtain ⟨⟨row, missing, nums, _, hfil, _⟩, _⟩ :=
      c8_detect_instance_gaps
        [{ path := "p1", seriesUID := some "S", instanceNumber := some "1" },
          { path := "p2", seriesUID := some "S", instanceNumber := some "2" },
          { path := "p3", seriesUID := some "S", instanceNumber := some "4" },
          { path := "p4", seriesUID := some "S", instanceNumber := some "5" }]
        (some "S") (by decide)
    exact ⟨row, hfil⟩
  · rfl

end CTQ
